import Mathlib

/-!
Shallow embedding of the covered-call trading strategy backtester
(`src/strategies/covered_call/`): the strategy engine (`strategy.py`),
the volatility estimator (`pricing.py`), the cash-floor monitor
(`cash_floor.py`) and the backtest day loop (`backtest.py`), with theorems
checking the specification's claims against this embedding.

Conventions:
* Python `float` arithmetic is embedded as exact rational arithmetic (`ℚ`).
* Python `datetime.date` values are embedded as integers (day numbers);
  `timedelta(days = n)` becomes integer addition and `(a - b).days`
  becomes `a - b`.
* The transcendental parts of the pricing module (`black_scholes_call` and
  `call_delta`, which use `exp`, `log` and the normal CDF, and the rolling
  standard deviation `np.std(log_returns[i - window : i]) * sqrt(252)`
  inside `implied_volatility_from_history`) are embedded as parameters:
  the strategy and backtest definitions take a `PricingModel`, and the
  volatility estimator takes the per-index rolling-volatility value `hvAt`.
  Claim theorems below either hold for every instantiation of these
  parameters or are settled at an explicitly constructed instantiation.
* Python exceptions are embedded with `Except`: the `ZeroDivisionError`
  reachable in `should_roll`, and the insufficient-data `ValueError`
  raised by `CoveredCallBacktest.run`.
* `np.nan` entries of the estimator output are embedded as `none`
  (`np.maximum` propagates NaN, which `Option.map` mirrors).
* Write-only cosmetic data (the `details` strings on trades, the
  monitor's accumulated `snapshots` list) is elided; the cash-floor
  warning text is embedded as an enumeration identifying which of the
  four warning branches produced it.
-/

set_option maxRecDepth 2000

namespace CoveredCall

/-- Action kinds of `TradeRecord.action` (`strategy.py`, the five string
tags `"BUY_STOCK"`, `"SELL_CALL"`, `"EXPIRE"`, `"CALLED_AWAY"`, `"ROLL"`). -/
inductive TradeAction where
  | buyStock
  | sellCall
  | expire
  | calledAway
  | roll
deriving DecidableEq, Repr

/-- Configuration record (`config.py`, `CoveredCallConfig`). The `ticker`
label and `max_portfolio_pct` are informational only and elided. -/
structure CoveredCallConfig where
  shares : ℕ
  min_strike : ℚ
  strike_candidates : List ℚ
  target_dte : ℕ
  min_dte : ℕ
  max_dte : ℕ
  roll_dte_threshold : ℤ
  roll_profit_pct : ℚ
  commission_per_contract : ℚ
  bid_ask_spread_pct : ℚ
  risk_free_rate : ℚ
  net_cash_per_share : ℚ
  cash_burn_per_quarter : ℚ
deriving DecidableEq, Repr

/-- Default configuration values from `config.py`. -/
def defaultConfig : CoveredCallConfig where
  shares := 1000
  min_strike := 5/2
  strike_candidates := [2, 5/2, 3, 7/2, 4, 5]
  target_dte := 30
  min_dte := 14
  max_dte := 45
  roll_dte_threshold := 5
  roll_profit_pct := 4/5
  commission_per_contract := 13/20
  bid_ask_spread_pct := 3/20
  risk_free_rate := 9/200
  net_cash_per_share := 3/2
  cash_burn_per_quarter := 1/10

/-- Interface of the closed-form pricing functions of `pricing.py` used by
the strategy engine.  `black_scholes_call S K T r sigma` and
`call_delta S K T r sigma` are real-valued total functions in the source;
they are parameters of the embedding because their bodies use `exp`, `log`
and the Gaussian CDF. -/
structure PricingModel where
  black_scholes_call : ℚ → ℚ → ℚ → ℚ → ℚ → ℚ
  call_delta : ℚ → ℚ → ℚ → ℚ → ℚ → ℚ

/-- Seller-side slippage (`pricing.py`, `apply_bid_ask_slippage`):
`theoretical_price * (1.0 - spread_pct / 2.0)`. -/
def apply_bid_ask_slippage (theoretical_price spread_pct : ℚ) : ℚ :=
  theoretical_price * (1 - spread_pct / 2)

/-- Open short-call position (`strategy.py`, `OptionPosition`). -/
structure OptionPosition where
  strike : ℚ
  expiration : ℤ
  premium_received : ℚ
  contracts : ℕ
  entry_date : ℤ
  entry_stock_price : ℚ
deriving DecidableEq, Repr

/-- Trade-log entry (`strategy.py`, `TradeRecord`); the human-readable
`details` string is elided. -/
structure TradeRecord where
  date : ℤ
  action : TradeAction
  strike : Option ℚ
  expiration : Option ℤ
  premium : ℚ
  stock_price : ℚ
  shares : ℕ
deriving DecidableEq, Repr

/-- Mutable state of `CoveredCallStrategy` (`strategy.py`, the fields set
in `__init__`). -/
structure CoveredCallStrategy where
  position : Option OptionPosition
  shares_held : ℕ
  trades : List TradeRecord
  total_premium_collected : ℚ
  total_commissions : ℚ
  times_called_away : ℕ
deriving DecidableEq, Repr

/-- Strategy state as constructed by `CoveredCallStrategy.__init__`. -/
def initStrategy : CoveredCallStrategy where
  position := none
  shares_held := 0
  trades := []
  total_premium_collected := 0
  total_commissions := 0
  times_called_away := 0

/-- One step of the candidate loop in `CoveredCallStrategy.select_strike`:
the accumulator holds `(best_strike, best_score)`. -/
def select_strike_step (pm : PricingModel) (cfg : CoveredCallConfig)
    (stock_price iv : ℚ) (dte : ℕ) (acc : ℚ × ℚ) (strike : ℚ) : ℚ × ℚ :=
  if strike < cfg.min_strike then acc
  else if strike ≤ stock_price * (51/50) then acc
  else
    let T : ℚ := (dte : ℚ) / 365
    let price := pm.black_scholes_call stock_price strike T cfg.risk_free_rate iv
    let delta := pm.call_delta stock_price strike T cfg.risk_free_rate iv
    let net_price := apply_bid_ask_slippage price cfg.bid_ask_spread_pct
    if net_price < 1/100 then acc
    else
      let annualized_return := (net_price / stock_price) * (365 / (dte : ℚ))
      let assignment_penalty := 1 - (1/2) * delta
      let score := annualized_return * assignment_penalty
      if acc.2 < score then (strike, score) else acc

/-- Result `(best_strike, best_score)` of the candidate loop in
`select_strike`, starting from `(config.min_strike, -1.0)`. -/
def select_strike_best (pm : PricingModel) (cfg : CoveredCallConfig)
    (stock_price iv : ℚ) (dte : ℕ) : ℚ × ℚ :=
  cfg.strike_candidates.foldl (select_strike_step pm cfg stock_price iv dte)
    (cfg.min_strike, -1)

/-- Strike selection (`strategy.py`, `CoveredCallStrategy.select_strike`):
returns `(strike, theoretical_premium)`. -/
def select_strike (pm : PricingModel) (cfg : CoveredCallConfig)
    (stock_price iv : ℚ) (dte : ℕ) : ℚ × ℚ :=
  let best := select_strike_best pm cfg stock_price iv dte
  (best.1,
    pm.black_scholes_call stock_price best.1 ((dte : ℚ) / 365) cfg.risk_free_rate iv)

/-- Net (slippage-adjusted) per-share premium computed by `sell_call`
for the strike chosen by `select_strike`. -/
def sell_call_net_premium (pm : PricingModel) (cfg : CoveredCallConfig)
    (stock_price iv : ℚ) (dte : ℕ) : ℚ :=
  apply_bid_ask_slippage (select_strike pm cfg stock_price iv dte).2
    cfg.bid_ask_spread_pct

/-- Buy the initial stock lot (`strategy.py`,
`CoveredCallStrategy.open_stock_position`). -/
def open_stock_position (cfg : CoveredCallConfig) (s : CoveredCallStrategy)
    (current_date : ℤ) (stock_price : ℚ) : CoveredCallStrategy × TradeRecord :=
  let trade : TradeRecord :=
    { date := current_date
      action := .buyStock
      strike := none
      expiration := none
      premium := -stock_price * (cfg.shares : ℚ)
      stock_price := stock_price
      shares := cfg.shares }
  ({ s with shares_held := cfg.shares, trades := s.trades ++ [trade] }, trade)

/-- Sell a covered call (`strategy.py`, `CoveredCallStrategy.sell_call`).
The Python default `dte = None` resolves to `config.target_dte`; callers
of this embedding pass that value explicitly. -/
def sell_call (pm : PricingModel) (cfg : CoveredCallConfig)
    (s : CoveredCallStrategy) (current_date : ℤ) (stock_price iv : ℚ)
    (dte : ℕ) : CoveredCallStrategy × TradeRecord :=
  let sel := select_strike pm cfg stock_price iv dte
  let strike := sel.1
  let net_premium := apply_bid_ask_slippage sel.2 cfg.bid_ask_spread_pct
  let contracts := s.shares_held / 100
  let commission := (contracts : ℚ) * cfg.commission_per_contract
  let total_premium := net_premium * (contracts : ℚ) * 100 - commission
  let expiration := current_date + (dte : ℤ)
  let pos : OptionPosition :=
    { strike := strike
      expiration := expiration
      premium_received := total_premium
      contracts := contracts
      entry_date := current_date
      entry_stock_price := stock_price }
  let trade : TradeRecord :=
    { date := current_date
      action := .sellCall
      strike := some strike
      expiration := some expiration
      premium := total_premium
      stock_price := stock_price
      shares := s.shares_held }
  ({ s with
      position := some pos
      total_premium_collected := s.total_premium_collected + total_premium
      total_commissions := s.total_commissions + commission
      trades := s.trades ++ [trade] }, trade)

/-- Expiration processing (`strategy.py`,
`CoveredCallStrategy.check_expiration`). -/
def check_expiration (s : CoveredCallStrategy) (current_date : ℤ)
    (stock_price : ℚ) : CoveredCallStrategy × Option TradeRecord :=
  match s.position with
  | none => (s, none)
  | some p =>
    if current_date < p.expiration then (s, none)
    else if p.strike ≤ stock_price then
      -- called away: shares sold at strike
      let trade : TradeRecord :=
        { date := current_date
          action := .calledAway
          strike := some p.strike
          expiration := some p.expiration
          premium := 0
          stock_price := stock_price
          shares := s.shares_held }
      ({ s with
          shares_held := 0
          position := none
          times_called_away := s.times_called_away + 1
          trades := s.trades ++ [trade] }, some trade)
    else
      -- expired worthless: keep shares
      let trade : TradeRecord :=
        { date := current_date
          action := .expire
          strike := some p.strike
          expiration := some p.expiration
          premium := 0
          stock_price := stock_price
          shares := s.shares_held }
      ({ s with position := none, trades := s.trades ++ [trade] }, some trade)

/-- Roll decision (`strategy.py`, `CoveredCallStrategy.should_roll`).
The Python body divides by `self.position.contracts * 100`; with zero
contracts that raises `ZeroDivisionError`, embedded as `.error ()`. -/
def should_roll (pm : PricingModel) (cfg : CoveredCallConfig)
    (s : CoveredCallStrategy) (current_date : ℤ) (stock_price iv : ℚ) :
    Except Unit Bool :=
  match s.position with
  | none => .ok false
  | some p =>
    let days_remaining := p.expiration - current_date
    if days_remaining ≤ cfg.roll_dte_threshold then .ok true
    else if p.contracts = 0 then .error ()
    else
      let T : ℚ := (days_remaining : ℚ) / 365
      let current_value :=
        pm.black_scholes_call stock_price p.strike T cfg.risk_free_rate iv
      let original_premium_per_share :=
        p.premium_received / ((p.contracts : ℚ) * 100)
      let profit_captured := original_premium_per_share - current_value
      .ok (original_premium_per_share * cfg.roll_profit_pct ≤ profit_captured)

/-- Roll execution (`strategy.py`, `CoveredCallStrategy.roll_position`):
buy back the current call, then sell a replacement via `sell_call`. -/
def roll_position (pm : PricingModel) (cfg : CoveredCallConfig)
    (s : CoveredCallStrategy) (current_date : ℤ) (stock_price iv : ℚ) :
    CoveredCallStrategy × List TradeRecord :=
  match s.position with
  | some p =>
    let days_remaining := p.expiration - current_date
    let T : ℚ := max ((days_remaining : ℚ) / 365) (1/1000)
    let buyback_price :=
      pm.black_scholes_call stock_price p.strike T cfg.risk_free_rate iv
    let buyback_cost := buyback_price * (1 + cfg.bid_ask_spread_pct / 2)
    let contracts := p.contracts
    let commission := (contracts : ℚ) * cfg.commission_per_contract
    let total_cost := buyback_cost * (contracts : ℚ) * 100 + commission
    let trade : TradeRecord :=
      { date := current_date
        action := .roll
        strike := some p.strike
        expiration := some p.expiration
        premium := -total_cost
        stock_price := stock_price
        shares := s.shares_held }
    let s1 : CoveredCallStrategy :=
      { s with
          total_commissions := s.total_commissions + commission
          trades := s.trades ++ [trade]
          position := none }
    let sold := sell_call pm cfg s1 current_date stock_price iv cfg.target_dte
    (sold.1, [trade, sold.2])
  | none =>
    let sold := sell_call pm cfg s current_date stock_price iv cfg.target_dte
    (sold.1, [sold.2])

/-- Which branch of `CashFloorMonitor.check` produced the warning string. -/
inductive CashWarning where
  | critical
  | weakened
  | belowCash
  | burnAlert
deriving DecidableEq, Repr

/-- Cash-floor monitor parameters (`cash_floor.py`, `CashFloorMonitor`);
`warn_threshold` and `danger_threshold` embed the source's warning and
danger limits (defaults `1.5` and `0.8`). -/
structure CashFloorMonitor where
  initial_net_cash : ℚ
  quarterly_burn : ℚ
  warn_threshold : ℚ
  danger_threshold : ℚ
deriving DecidableEq, Repr

/-- Snapshot produced by `CashFloorMonitor.check`; `price_to_cash = none`
embeds the `float("inf")` case. -/
structure CashFloorSnapshot where
  date : ℤ
  stock_price : ℚ
  estimated_net_cash_per_share : ℚ
  price_to_cash : Option ℚ
  thesis_intact : Bool
  warning : Option CashWarning
deriving DecidableEq, Repr

/-- Linear cash depletion (`cash_floor.py`,
`CashFloorMonitor.estimate_cash_at_date`). -/
def estimate_cash_at_date (m : CashFloorMonitor) (start_date current_date : ℤ) : ℚ :=
  let quarters_elapsed : ℚ := ((current_date - start_date : ℤ) : ℚ) / 90
  max (m.initial_net_cash - m.quarterly_burn * quarters_elapsed) 0

/-- Thesis check (`cash_floor.py`, `CashFloorMonitor.check`); the
source appends the snapshot to a write-only list, elided here. -/
def cash_floor_check (m : CashFloorMonitor) (current_date : ℤ)
    (stock_price : ℚ) (start_date : ℤ) : CashFloorSnapshot :=
  let est := estimate_cash_at_date m start_date current_date
  let price_to_cash : Option ℚ :=
    if 0 < est then some (stock_price / est) else none
  let base : Option CashWarning × Bool :=
    if est ≤ 0 then (some .critical, false)
    else if m.warn_threshold < stock_price / est then (some .weakened, true)
    else if stock_price < est * m.danger_threshold then (some .belowCash, true)
    else (none, true)
  let final : Option CashWarning × Bool :=
    if est < m.initial_net_cash * (1/2) then (some .burnAlert, false) else base
  { date := current_date
    stock_price := stock_price
    estimated_net_cash_per_share := est
    price_to_cash := price_to_cash
    thesis_intact := final.2
    warning := final.1 }

/-- Monitor as constructed by `CoveredCallBacktest.run`: configured cash
parameters, default warning and danger limits. -/
def monitorOfConfig (cfg : CoveredCallConfig) : CashFloorMonitor where
  initial_net_cash := cfg.net_cash_per_share
  quarterly_burn := cfg.cash_burn_per_quarter
  warn_threshold := 3/2
  danger_threshold := 4/5

/-- Volatility estimator (`pricing.py`, `implied_volatility_from_history`)
for an input price series of length `n`.  `hvAt j` is a parameter standing
for the real number `np.std(log_returns[j - 1 - window : j - 1]) * sqrt(252)`
that the source computes at the loop iteration writing index `j`
(well-defined whenever `window ≥ 1` and prices are positive).  `none`
entries embed `np.nan`; the final `np.maximum(iv_series, 0.30)` floor
propagates NaN, which the `Option.map` mirrors. -/
def implied_volatility_from_history (hvAt : ℕ → ℚ) (n window : ℕ)
    (iv_premium : ℚ) : List (Option ℚ) :=
  -- entries written by the loop: indices `window + 1 ≤ j ≤ n - 1`
  let rawIv : ℕ → Option ℚ := fun j =>
    if window + 1 ≤ j ∧ j < n then some (hvAt j * iv_premium) else none
  (List.range n).map (fun j =>
    let backfilled :=
      if j < window + 1 ∧ window + 1 < n then rawIv (window + 1) else rawIv j
    backfilled.map (fun x => max x (3/10)))

/-- Errors raised by `CoveredCallBacktest.run`: the insufficient-data
`ValueError`, and the `ZeroDivisionError` that `should_roll` would raise. -/
inductive RunError where
  | insufficientData
  | rollDivByZero
deriving DecidableEq, Repr

/-- One row of the normalized, windowed price frame, enumerated with its
positional index and the day's volatility estimate. -/
structure DayRow where
  idx : ℕ
  date : ℤ
  close : ℚ
  iv : ℚ
deriving DecidableEq, Repr

/-- Daily equity record appended by the backtest loop. -/
structure EquityRow where
  date : ℤ
  equity : ℚ
  stock_price : ℚ
  cash : ℚ
  stock_value : ℚ
  option_liability : ℚ
  iv : ℚ
deriving DecidableEq, Repr

/-- Running state of `CoveredCallBacktest.run`'s loop: the strategy
object, the cash balance, the accumulated equity curve and warnings, plus
the run constants `initial_investment` and `backtest_start`. -/
structure BacktestState where
  strategy : CoveredCallStrategy
  cash : ℚ
  equity_rows : List EquityRow
  warnings : List (ℤ × CashWarning)
  initial_investment : ℚ
  backtest_start : ℤ
deriving DecidableEq, Repr

/-- Per-run constants threaded through the day loop. -/
structure RunCtx where
  pm : PricingModel
  cfg : CoveredCallConfig

/-- Date-window restriction in `run`: `df[df["Date"] >= start_date]`
then `df[df["Date"] <= end_date]`, each applied only when given. -/
def window_filter (start_date end_date : Option ℤ) (l : List (ℤ × ℚ)) :
    List (ℤ × ℚ) :=
  let l1 := match start_date with
    | some sd => l.filter (fun p => sd ≤ p.1)
    | none => l
  match end_date with
  | some ed => l1.filter (fun p => p.1 ≤ ed)
  | none => l1

/-- `df.sort_values("Date")` on the normalized price frame. -/
def date_sorted (l : List (ℤ × ℚ)) : List (ℤ × ℚ) :=
  l.insertionSort (fun a b => a.1 ≤ b.1)

/-- Build the enumerated day rows: volatility estimates come from
`implied_volatility_from_history(close_prices, window=20)`, with NaN
entries replaced by the 0.50 default (`iv_series[i] if not np.isnan(...)
else 0.50`). -/
def make_rows (hvAt : ℕ → ℚ) (l : List (ℤ × ℚ)) : List DayRow :=
  let ivs := implied_volatility_from_history hvAt l.length 20 (13/10)
  l.enum.map (fun p =>
    { idx := p.1
      date := p.2.1
      close := p.2.2
      iv := (ivs.getD p.1 none).getD (1/2) })

/-- First ("entry") block of the day loop: if no shares and no position,
and it is day 0 or an assignment has happened, buy stock and sell the
first call. -/
def entry_phase (ctx : RunCtx) (day : DayRow) (st : BacktestState) :
    BacktestState :=
  if st.strategy.shares_held = 0 ∧ st.strategy.position = none then
    if day.idx = 0 ∨ 0 < st.strategy.times_called_away then
      let bought := open_stock_position ctx.cfg st.strategy day.date day.close
      let sold := sell_call ctx.pm ctx.cfg bought.1 day.date day.close day.iv
        ctx.cfg.target_dte
      { st with
          strategy := sold.1
          cash := st.cash - day.close * (ctx.cfg.shares : ℚ) + sold.2.premium }
    else st
  else st

/-- Expiration / roll block of the day loop, transcribing the source's
`if strategy.position is not None: ... elif strategy.position is not None:
...` structure verbatim (the `elif` re-tests the same condition, so its
body — the roll check — is unreachable). -/
def exp_roll_phase (ctx : RunCtx) (day : DayRow) (st : BacktestState) :
    Except RunError BacktestState :=
  if st.strategy.position.isSome then
    match check_expiration st.strategy day.date day.close with
    | (s1, none) => .ok { st with strategy := s1 }
    | (s1, some t) =>
      let cash1 :=
        if t.action = .calledAway then
          st.cash + (ctx.cfg.shares : ℚ) * t.strike.getD 0
        else st.cash
      if t.action = .expire then
        let sold := sell_call ctx.pm ctx.cfg s1 day.date day.close day.iv
          ctx.cfg.target_dte
        .ok { st with strategy := sold.1, cash := cash1 + sold.2.premium }
      else .ok { st with strategy := s1, cash := cash1 }
  else if st.strategy.position.isSome then
    match should_roll ctx.pm ctx.cfg st.strategy day.date day.close day.iv with
    | .error _ => .error .rollDivByZero
    | .ok true =>
      let rolled := roll_position ctx.pm ctx.cfg st.strategy day.date day.close
        day.iv
      .ok { st with
              strategy := rolled.1
              cash := st.cash + (rolled.2.map (fun t => t.premium)).sum }
    | .ok false => .ok st
  else .ok st

/-- Cash-floor block of the day loop: every 5th day (`i % 5 == 0`) run the
monitor and collect any warning. -/
def floor_phase (ctx : RunCtx) (day : DayRow) (st : BacktestState) :
    BacktestState :=
  if day.idx % 5 = 0 then
    let snap := cash_floor_check (monitorOfConfig ctx.cfg) day.date day.close
      st.backtest_start
    match snap.warning with
    | some w => { st with warnings := st.warnings ++ [(day.date, w)] }
    | none => st
  else st

/-- Mark-to-market block of the day loop: compute stock value, short-call
liability and total equity, and append the daily equity row. -/
def equity_phase (ctx : RunCtx) (day : DayRow) (st : BacktestState) :
    BacktestState :=
  let stock_value := (st.strategy.shares_held : ℚ) * day.close
  let option_liability :=
    match st.strategy.position with
    | none => 0
    | some p =>
      let days_remaining := p.expiration - day.date
      if 0 < days_remaining then
        ctx.pm.black_scholes_call day.close p.strike
            ((days_remaining : ℚ) / 365) ctx.cfg.risk_free_rate day.iv
          * (p.contracts : ℚ) * 100
      else 0
  let total_equity := st.cash + stock_value - option_liability
  { st with
      equity_rows := st.equity_rows ++
        [{ date := day.date
           equity := total_equity
           stock_price := day.close
           cash := st.cash
           stock_value := stock_value
           option_liability := option_liability
           iv := day.iv }] }

/-- One iteration of the `for i, row in df.iterrows()` loop in `run`. -/
def step_day (ctx : RunCtx) (st : BacktestState) (day : DayRow) :
    Except RunError BacktestState :=
  match exp_roll_phase ctx day (entry_phase ctx day st) with
  | .error e => .error e
  | .ok st2 => .ok (equity_phase ctx day (floor_phase ctx day st2))

/-- Preprocessing of `run` before the day loop: sort, restrict to the
date window, require at least 30 rows, set up initial cash (equal to the
initial investment `first_price * shares`) and the day rows. -/
def backtest_prep (pm : PricingModel) (hvAt : ℕ → ℚ)
    (cfg : CoveredCallConfig) (prices : List (ℤ × ℚ))
    (start_date end_date : Option ℤ) :
    Except RunError (RunCtx × BacktestState × List DayRow) :=
  let df := window_filter start_date end_date (date_sorted prices)
  if df.length < 30 then .error .insufficientData
  else
    let first := df.headD (0, 0)
    let initial_investment := first.2 * (cfg.shares : ℚ)
    .ok (⟨pm, cfg⟩,
      { strategy := initStrategy
        cash := initial_investment
        equity_rows := []
        warnings := []
        initial_investment := initial_investment
        backtest_start := first.1 }, make_rows hvAt df)

/-- The full day loop of `CoveredCallBacktest.run` (the post-loop metric
aggregation is not needed by any claim and is elided; the returned
`BacktestState` carries the trade log, the equity curve, the final cash
and the warnings from which those metrics are computed). -/
def run_backtest (pm : PricingModel) (hvAt : ℕ → ℚ)
    (cfg : CoveredCallConfig) (prices : List (ℤ × ℚ))
    (start_date end_date : Option ℤ) : Except RunError BacktestState :=
  match backtest_prep pm hvAt cfg prices start_date end_date with
  | .error e => .error e
  | .ok (ctx, st0, rows) => rows.foldlM (step_day ctx) st0

/-- The state of the day loop after processing only the first `k` day
rows (so `run_up_to` at `k ≥` number of rows coincides with
`run_backtest`): every intermediate state of a run is reachable this
way. -/
def run_up_to (pm : PricingModel) (hvAt : ℕ → ℚ)
    (cfg : CoveredCallConfig) (prices : List (ℤ × ℚ))
    (start_date end_date : Option ℤ) (k : ℕ) : Except RunError BacktestState :=
  match backtest_prep pm hvAt cfg prices start_date end_date with
  | .error e => .error e
  | .ok (ctx, st0, rows) => (rows.take k).foldlM (step_day ctx) st0

/-! ### Concrete instantiations used for counterexamples and witnesses

`pennyPm` prices every call at 0.0003 per share, matching (to four decimal
places) the true Black-Scholes value of the scenario-A situation of the
spec: spot 2.00, strike 2.50, 30 days to expiry, rate 0.045, volatility
0.30.  `dimePm` prices every call at a healthy 0.10 per share with delta
0.20.  `flatHv` is the rolling volatility of a constant price series
(zero, exactly as `np.std` of zero log returns). -/

def pennyPm : PricingModel where
  black_scholes_call := fun _ _ _ _ _ => 3/10000
  call_delta := fun _ _ _ _ _ => 0

def dimePm : PricingModel where
  black_scholes_call := fun _ _ _ _ _ => 1/10
  call_delta := fun _ _ _ _ _ => 1/5

def flatHv : ℕ → ℚ := fun _ => 0

/-- Forty trading days, consecutive dates, constant close 2.00. -/
def flatPrices40 : List (ℤ × ℚ) := (List.range 40).map (fun i => ((i : ℤ), 2))

/-- Thirty-one trading days at 2.00 except a jump to 3.00 on the last
day, which is exactly the expiration date of the day-0 call. -/
def risePrices31 : List (ℤ × ℚ) :=
  (List.range 31).map (fun i => ((i : ℤ), if i = 30 then 3 else 2))

/-- Inert placeholder state used only to extract run results in closed
witness statements. -/
def fallbackState : BacktestState where
  strategy := initStrategy
  cash := 0
  equity_rows := []
  warnings := []
  initial_investment := 0
  backtest_start := 0

/-- Inert placeholder trade used only in closed witness statements. -/
def dummyTrade : TradeRecord where
  date := 0
  action := .expire
  strike := none
  expiration := none
  premium := 0
  stock_price := 0
  shares := 0

/-- Inert placeholder equity row used only in closed witness statements. -/
def dummyRow : EquityRow where
  date := 0
  equity := 0
  stock_price := 0
  cash := 0
  stock_value := 0
  option_liability := 0
  iv := 0

/-- Covered-lot invariant of the spec: the share count is zero or
exactly the configured lot, and an open position implies the full lot is
held (at most one position exists by construction: the state holds a
single nullable `position` field, as in the source). -/
def lot_invariant (cfg : CoveredCallConfig) (s : CoveredCallStrategy) : Prop :=
  (s.shares_held = 0 ∨ s.shares_held = cfg.shares) ∧
  (s.position.isSome → s.shares_held = cfg.shares)

/-- Boolean equality test on rationals through the normalized numerator
and denominator; `ratEqB_iff` below shows it coincides with `=`.  (Used
in computed counterexamples and witnesses.) -/
def ratEqB (a b : ℚ) : Bool := a.num == b.num && a.den == b.den

/-- Sum of the signed cash flows of a trade log. -/
def trade_cash_sum (trades : List TradeRecord) : ℚ :=
  (trades.map (fun t => t.premium)).sum

/-- Total assignment proceeds credited by the backtest loop for the
CALLED_AWAY trades of a log: `config.shares * exp_trade.strike` per
assignment (the proceeds are credited to cash directly, not through the
trade's `premium` field, which is zero). -/
def assignment_credit (cfg : CoveredCallConfig) (trades : List TradeRecord) : ℚ :=
  ((trades.filter (fun t => t.action == TradeAction.calledAway)).map
    (fun t => (cfg.shares : ℚ) * t.strike.getD 0)).sum

/-- State of the flat-price run after the first `k` day rows, used in
closed witnesses. -/
def flatRunUpTo (k : ℕ) : BacktestState :=
  (run_up_to pennyPm flatHv defaultConfig flatPrices40 none none k).toOption.getD
    fallbackState

/-- Final state of the rising-price run ending in an assignment, used in
closed witnesses. -/
def riseRunFinal : BacktestState :=
  (run_backtest dimePm flatHv defaultConfig risePrices31 none none).toOption.getD
    fallbackState

/-! ### Generic fold helpers -/

theorem list_foldl_inv {α β : Type} (f : β → α → β) (P : β → Prop)
    (hf : ∀ b a, P b → P (f b a)) :
    ∀ (l : List α) (b : β), P b → P (l.foldl f b) := by
  intro l
  induction l with
  | nil => intro b hb; exact hb
  | cons a l ih => intro b hb; exact ih _ (hf b a hb)

theorem except_bind_ok {ε α β : Type} (a : α) (f : α → Except ε β) :
    (Except.ok a >>= f) = f a := rfl

theorem except_bind_error {ε α β : Type} (e : ε) (f : α → Except ε β) :
    ((Except.error e : Except ε α) >>= f) = Except.error e := rfl

theorem list_foldlM_ok {α β ε : Type} (f : β → α → Except ε β)
    (hf : ∀ b a, ∃ b', f b a = .ok b') :
    ∀ (l : List α) (b : β), ∃ b', l.foldlM f b = .ok b' := by
  intro l
  induction l with
  | nil => intro b; exact ⟨b, rfl⟩
  | cons a l ih =>
    intro b
    obtain ⟨b1, h1⟩ := hf b a
    obtain ⟨b2, h2⟩ := ih b1
    exact ⟨b2, by rw [List.foldlM_cons, h1, except_bind_ok]; exact h2⟩

theorem list_foldlM_inv {α β ε : Type} (f : β → α → Except ε β) (P : β → Prop) :
    ∀ (l : List α), (∀ b a b', a ∈ l → P b → f b a = .ok b' → P b') →
      ∀ b b', P b → l.foldlM f b = .ok b' → P b' := by
  intro l
  induction l with
  | nil =>
    intro _ b b' hb h
    simp only [List.foldlM_nil] at h
    cases h
    exact hb
  | cons a l ih =>
    intro hf b b' hb h
    rw [List.foldlM_cons] at h
    cases h1 : f b a with
    | error e => rw [h1, except_bind_error] at h; exact Except.noConfusion h
    | ok b1 =>
      rw [h1, except_bind_ok] at h
      exact ih (fun b a b' ha => hf b a b' (List.mem_cons_of_mem _ ha))
        b1 b' (hf b a b1 (List.mem_cons_self _ _) hb h1) h

theorem ratEqB_iff (a b : ℚ) : ratEqB a b = true ↔ a = b := by
  unfold ratEqB
  constructor
  · intro h
    simp only [Bool.and_eq_true, beq_iff_eq] at h
    exact Rat.ext h.1 h.2
  · rintro rfl
    simp

/-! ### Day-loop analysis lemmas -/

theorem exp_roll_phase_of_none (ctx : RunCtx) (day : DayRow) (st : BacktestState)
    (hp : st.strategy.position = none) : exp_roll_phase ctx day st = .ok st := by
  simp [exp_roll_phase, hp]

theorem exp_roll_phase_ok (ctx : RunCtx) (day : DayRow) (st : BacktestState) :
    ∃ st2, exp_roll_phase ctx day st = .ok st2 := by
  unfold exp_roll_phase
  cases hp : st.strategy.position with
  | none => simp [hp]
  | some p =>
    simp only [hp, Option.isSome_some, if_true]
    rcases h : check_expiration st.strategy day.date day.close with ⟨s1, t?⟩
    cases t? with
    | none => exact ⟨_, rfl⟩
    | some t =>
      dsimp only
      split
      · exact ⟨_, rfl⟩
      · exact ⟨_, rfl⟩

theorem step_day_ok (ctx : RunCtx) (st : BacktestState) (day : DayRow) :
    ∃ st', step_day ctx st day = .ok st' := by
  unfold step_day
  obtain ⟨st2, h2⟩ := exp_roll_phase_ok ctx day (entry_phase ctx day st)
  rw [h2]
  exact ⟨_, rfl⟩

theorem floor_phase_strategy (ctx : RunCtx) (day : DayRow) (st : BacktestState) :
    (floor_phase ctx day st).strategy = st.strategy := by
  unfold floor_phase
  split
  · dsimp only
    split <;> rfl
  · rfl

theorem floor_phase_cash (ctx : RunCtx) (day : DayRow) (st : BacktestState) :
    (floor_phase ctx day st).cash = st.cash := by
  unfold floor_phase
  split
  · dsimp only
    split <;> rfl
  · rfl

theorem floor_phase_rows (ctx : RunCtx) (day : DayRow) (st : BacktestState) :
    (floor_phase ctx day st).equity_rows = st.equity_rows := by
  unfold floor_phase
  split
  · dsimp only
    split <;> rfl
  · rfl

theorem floor_phase_init_inv (ctx : RunCtx) (day : DayRow) (st : BacktestState) :
    (floor_phase ctx day st).initial_investment = st.initial_investment := by
  unfold floor_phase
  split
  · dsimp only
    split <;> rfl
  · rfl

theorem equity_phase_strategy (ctx : RunCtx) (day : DayRow) (st : BacktestState) :
    (equity_phase ctx day st).strategy = st.strategy := rfl

theorem equity_phase_cash (ctx : RunCtx) (day : DayRow) (st : BacktestState) :
    (equity_phase ctx day st).cash = st.cash := rfl

theorem equity_phase_init_inv (ctx : RunCtx) (day : DayRow) (st : BacktestState) :
    (equity_phase ctx day st).initial_investment = st.initial_investment := rfl

/-! ### Claim C6: `check_expiration` case analysis -/

/-- C6: for every state with an open position, `check_expiration date spot`
is a no-op returning `none` while `date < expiration`; once
`expiration ≤ date`, if `strike ≤ spot` (ties included) it zeroes the
share count, clears the position, increments the assignment counter and
appends a CALLED_AWAY trade, and if `spot < strike` it clears the
position, retains the shares and appends an EXPIRE trade. -/
theorem claim_C6 (s : CoveredCallStrategy) (p : OptionPosition) (d : ℤ)
    (spot : ℚ) (hp : s.position = some p) :
    (d < p.expiration → check_expiration s d spot = (s, none)) ∧
    (p.expiration ≤ d → p.strike ≤ spot →
      check_expiration s d spot =
        ({ s with
            shares_held := 0
            position := none
            times_called_away := s.times_called_away + 1
            trades := s.trades ++
              [⟨d, .calledAway, some p.strike, some p.expiration, 0, spot,
                s.shares_held⟩] },
          some ⟨d, .calledAway, some p.strike, some p.expiration, 0, spot,
            s.shares_held⟩)) ∧
    (p.expiration ≤ d → spot < p.strike →
      check_expiration s d spot =
        ({ s with
            position := none
            trades := s.trades ++
              [⟨d, .expire, some p.strike, some p.expiration, 0, spot,
                s.shares_held⟩] },
          some ⟨d, .expire, some p.strike, some p.expiration, 0, spot,
            s.shares_held⟩)) := by
  refine ⟨fun hd => ?_, fun hd hs => ?_, fun hd hs => ?_⟩
  · simp [check_expiration, hp, hd]
  · simp [check_expiration, hp, not_lt.mpr hd, hs]
  · simp [check_expiration, hp, not_lt.mpr hd, not_le.mpr hs]

/-- Witness for C6 at a concrete position (strike 2.50 expiring on day 30,
sold on day 0 against 1000 shares). -/
theorem claim_C6_witness :
    check_expiration ⟨some ⟨5/2, 30, 86, 10, 0, 2⟩, 1000, [], 86, 13/2, 0⟩
        10 2 = (⟨some ⟨5/2, 30, 86, 10, 0, 2⟩, 1000, [], 86, 13/2, 0⟩, none) ∧
    (check_expiration ⟨some ⟨5/2, 30, 86, 10, 0, 2⟩, 1000, [], 86, 13/2, 0⟩
        30 3).2 = some ⟨30, .calledAway, some (5/2), some 30, 0, 3, 1000⟩ ∧
    (check_expiration ⟨some ⟨5/2, 30, 86, 10, 0, 2⟩, 1000, [], 86, 13/2, 0⟩
        30 2).2 = some ⟨30, .expire, some (5/2), some 30, 0, 2, 1000⟩ :=
  ⟨(claim_C6 _ _ 10 2 rfl).1 (by decide),
   by rw [(claim_C6 _ ⟨5/2, 30, 86, 10, 0, 2⟩ 30 3 rfl).2.1 (by decide)
     (by with_unfolding_all decide)],
   by rw [(claim_C6 _ ⟨5/2, 30, 86, 10, 0, 2⟩ 30 2 rfl).2.2 (by decide)
     (by with_unfolding_all decide)]⟩

/-! ### Claim C9: cash-floor monitor -/

/-- C9: the estimated per-share cash is the initial cash minus the
quarterly burn times elapsed days over 90, floored at 0; with the
configured initial cash 1.50 and burn 0.10 per quarter, 450 elapsed days
give exactly 1.00; and the check at that point emits the weakened-thesis
warning exactly when price divided by the estimated cash exceeds 1.5. -/
theorem claim_C9 :
    (∀ (m : CashFloorMonitor) (sd cd : ℤ),
        estimate_cash_at_date m sd cd =
          max (m.initial_net_cash -
            m.quarterly_burn * (((cd - sd : ℤ) : ℚ) / 90)) 0) ∧
    estimate_cash_at_date (monitorOfConfig defaultConfig) 0 450 = 1 ∧
    (∀ price : ℚ,
        (cash_floor_check (monitorOfConfig defaultConfig) 450 price 0).warning =
            some .weakened ↔
          3/2 < price / estimate_cash_at_date (monitorOfConfig defaultConfig) 0 450) := by
  refine ⟨fun m sd cd => rfl, by with_unfolding_all decide, fun price => ?_⟩
  have hest : estimate_cash_at_date (monitorOfConfig defaultConfig) 0 450 = 1 := by
    with_unfolding_all decide
  rw [hest]
  unfold cash_floor_check
  rw [hest]
  norm_num [monitorOfConfig, defaultConfig]
  split_ifs with h1 h2 <;> simp_all [not_lt]

/-- Witness for C9 at price 2.00 (ratio 2.0 > 1.5: weakened warning). -/
theorem claim_C9_witness :
    estimate_cash_at_date (monitorOfConfig defaultConfig) 0 450 = 1 ∧
    (cash_floor_check (monitorOfConfig defaultConfig) 450 2 0).warning =
      some .weakened :=
  ⟨claim_C9.2.1, (claim_C9.2.2 2).mpr (by rw [claim_C9.2.1]; norm_num)⟩

/-! ### Claim C10: `should_roll` division safety -/

/-- C10: `sell_call` with at least 100 shares held installs a position
with at least one contract, and on any position with at least one
contract `should_roll` never reaches the division-by-zero error; with
fewer than 100 shares held, `sell_call` installs a position with zero
contracts, and a later `should_roll` on it (with more days remaining
than the roll threshold, so that the profit-capture quotient is reached)
raises the division-by-zero error. -/
theorem claim_C10 :
    (∀ (pm : PricingModel) (cfg : CoveredCallConfig) (s : CoveredCallStrategy)
        (d : ℤ) (spot iv : ℚ) (dte : ℕ), 100 ≤ s.shares_held →
        1 ≤ ((sell_call pm cfg s d spot iv dte).1.position.map
          OptionPosition.contracts).getD 0) ∧
    (∀ (pm : PricingModel) (cfg : CoveredCallConfig) (s : CoveredCallStrategy)
        (p : OptionPosition) (d : ℤ) (spot iv : ℚ), s.position = some p →
        1 ≤ p.contracts → ∃ b, should_roll pm cfg s d spot iv = .ok b) ∧
    (∀ (pm : PricingModel) (cfg : CoveredCallConfig) (s : CoveredCallStrategy)
        (d : ℤ) (spot iv : ℚ) (dte : ℕ), s.shares_held < 100 →
        ((sell_call pm cfg s d spot iv dte).1.position.map
          OptionPosition.contracts).getD 0 = 0) ∧
    (∀ (pm : PricingModel) (cfg : CoveredCallConfig) (s : CoveredCallStrategy)
        (d : ℤ) (spot iv : ℚ) (dte : ℕ) (d2 : ℤ) (spot2 iv2 : ℚ),
        s.shares_held < 100 →
        cfg.roll_dte_threshold < (d + (dte : ℤ)) - d2 →
        should_roll pm cfg (sell_call pm cfg s d spot iv dte).1 d2 spot2 iv2 =
          .error ()) := by
  refine ⟨fun pm cfg s d spot iv dte h => ?_, fun pm cfg s p d spot iv hp hc => ?_,
    fun pm cfg s d spot iv dte h => ?_,
    fun pm cfg s d spot iv dte d2 spot2 iv2 h hd => ?_⟩
  · simp only [sell_call, Option.map_some, Option.getD_some]
    exact (Nat.one_le_div_iff (by norm_num)).mpr h
  · unfold should_roll
    rw [hp]
    dsimp only
    split
    · exact ⟨true, rfl⟩
    · rw [if_neg (by omega)]
      exact ⟨_, rfl⟩
  · simp only [sell_call, Option.map_some, Option.getD_some]
    exact Nat.div_eq_of_lt h
  · have hc : s.shares_held / 100 = 0 := Nat.div_eq_of_lt h
    unfold should_roll
    simp only [sell_call]
    rw [if_neg (by omega), if_pos hc]

/-- Witness for C10: selling a call with zero shares held, then asking
`should_roll` 30 days before expiration, hits the division-by-zero
error. -/
theorem claim_C10_witness :
    should_roll pennyPm defaultConfig
        (sell_call pennyPm defaultConfig initStrategy 0 2 (3/10) 30).1
        0 2 (3/10) = .error () :=
  claim_C10.2.2.2 pennyPm defaultConfig initStrategy 0 2 (3/10) 30 0 2 (3/10)
    (by decide) (by decide)

/-! ### Claim C7: volatility estimator (corrected) -/

/-- Counterexample to C7 as stated: for an input no longer than the
lookback window plus one (here 3 prices, window 2), the loop writes no
entry, the backfill guard `first_valid < len(iv_series)` fails, and the
NaN-propagating floor leaves every entry missing. -/
theorem claim_C7_counterexample :
    (implied_volatility_from_history (fun _ => 1) 3 2 (13/10)).all
      (fun v => v.isSome) = false ∧
    implied_volatility_from_history (fun _ => 1) 3 2 (13/10) =
      [none, none, none] := by
  constructor <;> with_unfolding_all decide

/-- C7 amended: the estimator output always has the input's length; when
the input is at least `window + 2` long every entry is present and
floored at 0.30; when it is shorter than that, every entry is missing
(NaN), because no entry is computable and the backfill guard fails. -/
theorem claim_C7 (hvAt : ℕ → ℚ) (n window : ℕ) (prem : ℚ) :
    (implied_volatility_from_history hvAt n window prem).length = n ∧
    (window + 2 ≤ n →
      ∀ v ∈ implied_volatility_from_history hvAt n window prem,
        ∃ q, v = some q ∧ 3/10 ≤ q) ∧
    (n < window + 2 →
      ∀ v ∈ implied_volatility_from_history hvAt n window prem, v = none) := by
  refine ⟨by simp [implied_volatility_from_history], fun hn v hv => ?_,
    fun hn v hv => ?_⟩
  · unfold implied_volatility_from_history at hv
    simp only [List.mem_map, List.mem_range] at hv
    obtain ⟨j, hj, rfl⟩ := hv
    split
    · split
      · exact ⟨_, rfl, le_max_right _ _⟩
      · rename_i hb hr
        exact absurd ⟨le_refl _, hb.2⟩ hr
    · split
      · exact ⟨_, rfl, le_max_right _ _⟩
      · rename_i hb hr
        exact absurd ⟨by omega, hj⟩ hr
  · unfold implied_volatility_from_history at hv
    simp only [List.mem_map, List.mem_range] at hv
    obtain ⟨j, hj, rfl⟩ := hv
    split
    · rename_i hb
      exact absurd hb.2 (by omega)
    · split
      · rename_i hr
        exact absurd hr (by omega)
      · rfl

/-- Witness for the amended C7 at a concrete input of length 25 with
window 20: the first output entry is present. -/
theorem claim_C7_witness :
    ((implied_volatility_from_history (fun _ => 1) 25 20 (13/10)).getD 0
      none).isSome = true := by
  obtain ⟨q, hq, _⟩ :=
    (claim_C7 (fun _ => 1) 25 20 (13/10)).2.1 (by decide) _
      (by with_unfolding_all decide :
        (implied_volatility_from_history (fun _ => 1) 25 20 (13/10)).getD 0 none
          ∈ implied_volatility_from_history (fun _ => 1) 25 20 (13/10))
  rw [hq]
  rfl

/-! ### Claim C8: insufficient-data error -/

/-- C8: the backtest fails with the insufficient-data error exactly when
fewer than 30 observations remain after restricting the (sorted) price
sequence to the start/end window; with at least 30 it never raises that
error. -/
theorem claim_C8 (pm : PricingModel) (hvAt : ℕ → ℚ) (cfg : CoveredCallConfig)
    (prices : List (ℤ × ℚ)) (sd ed : Option ℤ) :
    run_backtest pm hvAt cfg prices sd ed = .error .insufficientData ↔
      (window_filter sd ed (date_sorted prices)).length < 30 := by
  unfold run_backtest backtest_prep
  dsimp only
  by_cases h : (window_filter sd ed (date_sorted prices)).length < 30
  · rw [if_pos h]
    simp [h]
  · rw [if_neg h]
    dsimp only
    obtain ⟨st', hst⟩ := list_foldlM_ok (step_day ⟨pm, cfg⟩)
      (fun b a => step_day_ok ⟨pm, cfg⟩ b a)
      (make_rows hvAt (window_filter sd ed (date_sorted prices))) _
    rw [hst]
    simp [h]

/-- Witness for C8: the empty price list triggers the insufficient-data
error. -/
theorem claim_C8_witness :
    run_backtest pennyPm flatHv defaultConfig [] none none =
      .error .insufficientData :=
  (claim_C8 pennyPm flatHv defaultConfig [] none none).mpr (by decide)

/-! ### Claim C2: minimum net premium (corrected) -/

/-- Counterexample to C2 as stated: in the spec's own scenario-A
situation (flat price 2.00, floor volatility 0.30, 30-day expiry, where
the true Black-Scholes value of the 2.50 call is 0.0003 per share as
`pennyPm` encodes) every candidate's net premium is under one cent, so
`select_strike` falls back to the configured minimum strike 2.50, and the
day-0 `sell_call` of the backtest appends a SELL_CALL trade whose
per-share net premium 0.0002775 is below one cent. -/
theorem claim_C2_counterexample :
    sell_call_net_premium pennyPm defaultConfig 2 (3/10) 30 < 1/100 ∧
    sell_call_net_premium pennyPm defaultConfig 2 (3/10) 30 = 111/400000 ∧
    (run_up_to pennyPm flatHv defaultConfig flatPrices40 none none 1).toOption.map
      (fun st => st.strategy.trades.any (fun t =>
        t.action == TradeAction.sellCall &&
          ratEqB t.premium (111/400000 * 10 * 100 -
            10 * defaultConfig.commission_per_contract))) = some true :=
  ⟨by with_unfolding_all decide,
   (ratEqB_iff _ _).mp (by with_unfolding_all decide),
   by with_unfolding_all decide⟩

/-- C2 amended: whenever some candidate qualifies in `select_strike`
(the selection score exceeds its `-1.0` sentinel), the net per-share
premium computed by `sell_call` is at least one cent; in the fallback to
the configured minimum strike the net premium may be below one cent. -/
theorem claim_C2 (pm : PricingModel) (cfg : CoveredCallConfig)
    (spot iv : ℚ) (dte : ℕ)
    (h : -1 < (select_strike_best pm cfg spot iv dte).2) :
    1/100 ≤ sell_call_net_premium pm cfg spot iv dte := by
  unfold sell_call_net_premium select_strike
  dsimp only
  refine list_foldl_inv (select_strike_step pm cfg spot iv dte)
    (fun acc => -1 < acc.2 →
      1/100 ≤ apply_bid_ask_slippage
        (pm.black_scholes_call spot acc.1 ((dte : ℚ)/365) cfg.risk_free_rate iv)
        cfg.bid_ask_spread_pct)
    (fun acc a hacc => ?_) cfg.strike_candidates (cfg.min_strike, -1)
    (fun hc => absurd hc (lt_irrefl _)) h
  unfold select_strike_step
  dsimp only
  split
  · exact hacc
  · split
    · exact hacc
    · split
      · exact hacc
      · split
        · rename_i hnet _
          intro _
          exact not_lt.mp hnet
        · exact hacc

/-- Witness for the amended C2: with a healthy 0.10 theoretical premium
a candidate qualifies and the net premium is at least one cent. -/
theorem claim_C2_witness :
    1/100 ≤ sell_call_net_premium dimePm defaultConfig 2 (3/10) 30 :=
  claim_C2 dimePm defaultConfig 2 (3/10) 30 (by with_unfolding_all decide)

theorem trade_cash_sum_append (a b : List TradeRecord) :
    trade_cash_sum (a ++ b) = trade_cash_sum a + trade_cash_sum b := by
  unfold trade_cash_sum
  rw [List.map_append, List.sum_append]

theorem assignment_credit_append (cfg : CoveredCallConfig)
    (a b : List TradeRecord) :
    assignment_credit cfg (a ++ b) =
      assignment_credit cfg a + assignment_credit cfg b := by
  unfold assignment_credit
  rw [List.filter_append, List.map_append, List.sum_append]

/-- Effect of the entry block on a day-loop state: either a no-op, or it
appends a BUY_STOCK trade (cash flow exactly `-close * shares`) and a
SELL_CALL trade, debits/credits cash accordingly, and restores the
covered-lot invariant. -/
theorem entry_phase_delta (ctx : RunCtx) (day : DayRow) (st : BacktestState) :
    ∃ new : List TradeRecord,
      (entry_phase ctx day st).strategy.trades = st.strategy.trades ++ new ∧
      (∀ t ∈ new,
        (t.action = .buyStock ∧ t.premium = -day.close * (ctx.cfg.shares : ℚ)) ∨
        t.action = .sellCall) ∧
      (entry_phase ctx day st).cash =
        st.cash + trade_cash_sum new + assignment_credit ctx.cfg new ∧
      (entry_phase ctx day st).equity_rows = st.equity_rows ∧
      (entry_phase ctx day st).initial_investment = st.initial_investment ∧
      (lot_invariant ctx.cfg st.strategy →
        lot_invariant ctx.cfg (entry_phase ctx day st).strategy) := by
  unfold entry_phase
  split
  · split
    · refine ⟨[(open_stock_position ctx.cfg st.strategy day.date day.close).2,
        (sell_call ctx.pm ctx.cfg
          (open_stock_position ctx.cfg st.strategy day.date day.close).1
          day.date day.close day.iv ctx.cfg.target_dte).2],
        ?_, ?_, ?_, rfl, rfl, ?_⟩
      · simp [sell_call, open_stock_position]
      · intro t ht
        simp only [List.mem_cons, List.not_mem_nil, or_false] at ht
        rcases ht with rfl | rfl
        · exact Or.inl ⟨rfl, rfl⟩
        · exact Or.inr (by simp [sell_call])
      · simp [trade_cash_sum, assignment_credit, sell_call, open_stock_position]
        ring
      · intro _
        refine ⟨Or.inr ?_, fun _ => ?_⟩ <;> simp [sell_call, open_stock_position]
    · exact ⟨[], by simp, by simp, by simp [trade_cash_sum, assignment_credit],
        rfl, rfl, id⟩
  · exact ⟨[], by simp, by simp, by simp [trade_cash_sum, assignment_credit],
      rfl, rfl, id⟩

/-- Effect of the expiration/roll block on a day-loop state: when it
succeeds it appends nothing (no position, or not yet expired), a single
CALLED_AWAY trade (premium 0, cash credited with `shares * strike`), or
an EXPIRE trade (premium 0) followed by a replacement SELL_CALL; the
roll `elif` re-tests the failed `position is not None` condition and so
contributes nothing.  Cash moves by the summed trade cash flows plus the
assignment credit, and the covered-lot invariant is preserved. -/
theorem exp_roll_phase_delta (ctx : RunCtx) (day : DayRow)
    (st stB : BacktestState) (h : exp_roll_phase ctx day st = .ok stB) :
    ∃ new : List TradeRecord,
      stB.strategy.trades = st.strategy.trades ++ new ∧
      (∀ t ∈ new,
        t.action = .sellCall ∨
        ((t.action = .expire ∨ t.action = .calledAway) ∧ t.premium = 0)) ∧
      stB.cash = st.cash + trade_cash_sum new + assignment_credit ctx.cfg new ∧
      stB.equity_rows = st.equity_rows ∧
      stB.initial_investment = st.initial_investment ∧
      (lot_invariant ctx.cfg st.strategy →
        lot_invariant ctx.cfg stB.strategy) := by
  unfold exp_roll_phase at h
  cases hp : st.strategy.position with
  | none =>
    simp only [hp, Option.isSome_none, Bool.false_eq_true, if_false] at h
    injection h with h
    subst h
    exact ⟨[], by simp, by simp, by simp [trade_cash_sum, assignment_credit],
      rfl, rfl, id⟩
  | some p =>
    simp only [hp, Option.isSome_some, if_true] at h
    unfold check_expiration at h
    simp only [hp] at h
    by_cases hd : day.date < p.expiration
    · rw [if_pos hd] at h
      dsimp only at h
      injection h with h
      subst h
      exact ⟨[], by simp, by simp, by simp [trade_cash_sum, assignment_credit],
        rfl, rfl, fun hi => hi⟩
    · rw [if_neg hd] at h
      by_cases hs : p.strike ≤ day.close
      · -- assignment
        rw [if_pos hs] at h
        dsimp only at h
        rw [if_pos rfl, if_neg (by decide)] at h
        injection h with h
        subst h
        refine ⟨[⟨day.date, .calledAway, some p.strike, some p.expiration, 0,
          day.close, st.strategy.shares_held⟩], by simp, ?_, ?_, rfl, rfl, ?_⟩
        · intro t ht
          simp only [List.mem_singleton] at ht
          subst ht
          exact Or.inr ⟨Or.inr rfl, rfl⟩
        · simp [trade_cash_sum, assignment_credit]
        · intro _
          exact ⟨Or.inl rfl, by simp⟩
      · -- expired worthless, then replacement sale
        rw [if_neg hs] at h
        dsimp only at h
        rw [if_pos rfl] at h
        rw [if_neg (fun hh => TradeAction.noConfusion hh)] at h
        injection h with h
        subst h
        refine ⟨[⟨day.date, .expire, some p.strike, some p.expiration, 0,
            day.close, st.strategy.shares_held⟩,
          (sell_call ctx.pm ctx.cfg
            { st.strategy with
                position := none
                trades := st.strategy.trades ++
                  [⟨day.date, .expire, some p.strike, some p.expiration, 0,
                    day.close, st.strategy.shares_held⟩] }
            day.date day.close day.iv ctx.cfg.target_dte).2],
          ?_, ?_, ?_, rfl, rfl, ?_⟩
        · simp [sell_call]
        · intro t ht
          simp only [List.mem_cons, List.not_mem_nil, or_false] at ht
          rcases ht with rfl | rfl
          · exact Or.inr ⟨Or.inl rfl, rfl⟩
          · exact Or.inl (by simp [sell_call])
        · simp [trade_cash_sum, assignment_credit, sell_call]
        · intro hi
          have hsh : st.strategy.shares_held = ctx.cfg.shares :=
            hi.2 (by simp [hp])
          refine ⟨Or.inr ?_, fun _ => ?_⟩ <;> simp [sell_call, hsh]

/-- Effect of the mark-to-market block: nothing changes but the equity
curve, which gains one row whose `cash` is the day's final cash and whose
`equity` is `cash + stock_value - option_liability`. -/
theorem equity_phase_delta (ctx : RunCtx) (day : DayRow) (st : BacktestState) :
    (equity_phase ctx day st).strategy = st.strategy ∧
    (equity_phase ctx day st).cash = st.cash ∧
    (equity_phase ctx day st).initial_investment = st.initial_investment ∧
    ∃ row : EquityRow,
      (equity_phase ctx day st).equity_rows = st.equity_rows ++ [row] ∧
      row.cash = st.cash ∧
      row.equity = row.cash + row.stock_value - row.option_liability :=
  ⟨rfl, rfl, rfl, _, rfl, rfl, rfl⟩

/-- Combined effect of one backtest day: the trade log grows by an
explicit list of benign trades, cash moves by their summed cash flows
plus the assignment credit, the covered-lot invariant is preserved, the
`initial_investment` constant is untouched, and exactly one equity row
is appended, internally consistent with the end-of-day cash. -/
theorem step_day_effects (ctx : RunCtx) (st : BacktestState) (day : DayRow)
    (st' : BacktestState) (h : step_day ctx st day = .ok st') :
    ∃ new : List TradeRecord,
      st'.strategy.trades = st.strategy.trades ++ new ∧
      (∀ t ∈ new,
        (t.action = .buyStock ∧ t.premium = -day.close * (ctx.cfg.shares : ℚ)) ∨
        t.action = .sellCall ∨
        ((t.action = .expire ∨ t.action = .calledAway) ∧ t.premium = 0)) ∧
      st'.cash = st.cash + trade_cash_sum new + assignment_credit ctx.cfg new ∧
      st'.initial_investment = st.initial_investment ∧
      (lot_invariant ctx.cfg st.strategy → lot_invariant ctx.cfg st'.strategy) ∧
      ∃ row : EquityRow,
        st'.equity_rows = st.equity_rows ++ [row] ∧
        row.cash = st'.cash ∧
        row.equity = row.cash + row.stock_value - row.option_liability := by
  unfold step_day at h
  cases h2 : exp_roll_phase ctx day (entry_phase ctx day st) with
  | error e =>
    rw [h2] at h
    exact Except.noConfusion h
  | ok stB =>
    rw [h2] at h
    injection h with h
    subst h
    obtain ⟨new1, ht1, hm1, hc1, hr1, hi1, hlot1⟩ := entry_phase_delta ctx day st
    obtain ⟨new2, ht2, hm2, hc2, hr2, hi2, hlot2⟩ :=
      exp_roll_phase_delta ctx day _ stB h2
    obtain ⟨heqs, heqc, heqi, row, hrow, hrowc, hrowe⟩ :=
      equity_phase_delta ctx day (floor_phase ctx day stB)
    refine ⟨new1 ++ new2, ?_, ?_, ?_, ?_, ?_, row, ?_, ?_, ?_⟩
    · rw [heqs, floor_phase_strategy, ht2, ht1, List.append_assoc]
    · intro t ht
      rcases List.mem_append.mp ht with ht | ht
      · rcases hm1 t ht with h | h
        · exact Or.inl h
        · exact Or.inr (Or.inl h)
      · rcases hm2 t ht with h | h
        · exact Or.inr (Or.inl h)
        · exact Or.inr (Or.inr h)
    · rw [heqc, floor_phase_cash, hc2, hc1, trade_cash_sum_append,
        assignment_credit_append]
      ring
    · rw [heqi, floor_phase_init_inv, hi2, hi1]
    · intro hlot
      rw [heqs, floor_phase_strategy]
      exact hlot2 (hlot1 hlot)
    · rw [hrow, floor_phase_rows, hr2, hr1]
    · rw [hrowc, heqc, floor_phase_cash]
    · exact hrowe

/-- Every invariant that holds of the initial loop state and is preserved
by `step_day` holds of the state after any number of processed day rows
of a run. -/
theorem run_up_to_inv (pm : PricingModel) (hvAt : ℕ → ℚ)
    (cfg : CoveredCallConfig) (prices : List (ℤ × ℚ)) (sd ed : Option ℤ)
    (k : ℕ) (st : BacktestState) (P : BacktestState → Prop)
    (h : run_up_to pm hvAt cfg prices sd ed k = .ok st)
    (hinit : P
      { strategy := initStrategy
        cash := ((window_filter sd ed (date_sorted prices)).headD (0, 0)).2 *
          (cfg.shares : ℚ)
        equity_rows := []
        warnings := []
        initial_investment :=
          ((window_filter sd ed (date_sorted prices)).headD (0, 0)).2 *
            (cfg.shares : ℚ)
        backtest_start :=
          ((window_filter sd ed (date_sorted prices)).headD (0, 0)).1 })
    (hstep : ∀ (b : BacktestState) (day : DayRow) (b' : BacktestState),
      day ∈ make_rows hvAt (window_filter sd ed (date_sorted prices)) →
      P b → step_day ⟨pm, cfg⟩ b day = .ok b' → P b') :
    P st := by
  unfold run_up_to backtest_prep at h
  by_cases hc : (window_filter sd ed (date_sorted prices)).length < 30
  · rw [if_pos hc] at h
    dsimp only at h
    exact Except.noConfusion h
  · rw [if_neg hc] at h
    dsimp only at h
    exact list_foldlM_inv _ P _
      (fun b day b' hd => hstep b day b'
        (List.take_subset k _ hd))
      _ _ hinit h

/-- The full run coincides with `run_up_to` at the total number of day
rows. -/
theorem run_backtest_eq_run_up_to (pm : PricingModel) (hvAt : ℕ → ℚ)
    (cfg : CoveredCallConfig) (prices : List (ℤ × ℚ)) (sd ed : Option ℤ) :
    run_backtest pm hvAt cfg prices sd ed =
      run_up_to pm hvAt cfg prices sd ed
        (make_rows hvAt (window_filter sd ed (date_sorted prices))).length := by
  unfold run_backtest run_up_to backtest_prep
  by_cases hc : (window_filter sd ed (date_sorted prices)).length < 30
  · rw [if_pos hc]
  · rw [if_neg hc]
    dsimp only
    rw [List.take_length]

theorem window_filter_subset (sd ed : Option ℤ) (l : List (ℤ × ℚ))
    (p : ℤ × ℚ) (hp : p ∈ window_filter sd ed l) : p ∈ l := by
  unfold window_filter at hp
  cases sd <;> cases ed <;> simp_all [List.mem_filter]

/-- Every day row of a run built from a positive price series has a
positive close. -/
theorem make_rows_close_pos (hvAt : ℕ → ℚ) (prices : List (ℤ × ℚ))
    (sd ed : Option ℤ) (hpos : ∀ pr ∈ prices, (0 : ℚ) < pr.2) :
    ∀ day ∈ make_rows hvAt (window_filter sd ed (date_sorted prices)),
      0 < day.close := by
  intro day hd
  unfold make_rows at hd
  simp only [List.mem_map] at hd
  obtain ⟨⟨i, pr⟩, hmem, rfl⟩ := hd
  rw [List.enum_eq_zip_range] at hmem
  have h1 : pr ∈ window_filter sd ed (date_sorted prices) :=
    (List.of_mem_zip hmem).2
  have h2 : pr ∈ date_sorted prices := window_filter_subset _ _ _ _ h1
  have h3 : pr ∈ prices := ((List.perm_insertionSort _ prices).mem_iff).mp h2
  exact hpos pr h3

/-! ### Claim C3: covered-lot invariant -/

/-- C3: at every reachable point of every backtest run (the state after
any number of processed day rows), `shares_held` is either 0 or exactly
the configured lot size, and the open position — of which at most one
exists, the state holding a single nullable position field — is non-null
only while the full lot is held. -/
theorem claim_C3 (pm : PricingModel) (hvAt : ℕ → ℚ) (cfg : CoveredCallConfig)
    (prices : List (ℤ × ℚ)) (sd ed : Option ℤ) (k : ℕ) (st : BacktestState)
    (h : run_up_to pm hvAt cfg prices sd ed k = .ok st) :
    (st.strategy.shares_held = 0 ∨ st.strategy.shares_held = cfg.shares) ∧
    (st.strategy.position.isSome → st.strategy.shares_held = cfg.shares) :=
  run_up_to_inv pm hvAt cfg prices sd ed k st
    (fun b => lot_invariant cfg b.strategy) h
    ⟨Or.inl rfl, by simp [initStrategy]⟩
    (fun b day b' _ hb hs =>
      (step_day_effects ⟨pm, cfg⟩ b day b' hs).choose_spec.2.2.2.2.1 hb)

/-- Witness for C3 after three days of the flat run: the full lot of
1000 shares is held and a position is open. -/
theorem claim_C3_witness :
    ((flatRunUpTo 3).strategy.shares_held = 0 ∨
      (flatRunUpTo 3).strategy.shares_held = defaultConfig.shares) ∧
    ((flatRunUpTo 3).strategy.position.isSome →
      (flatRunUpTo 3).strategy.shares_held = defaultConfig.shares) :=
  claim_C3 pennyPm flatHv defaultConfig flatPrices40 none none 3 _
    (by with_unfolding_all rfl)

/-! ### Claim C1: the roll branch of the day loop (code bug) -/

/-- C1: contrary to the claim, the roll branch of the day loop is
unreachable — the source's `elif strategy.position is not None` re-tests
the exact condition whose failure reaching the `elif` requires — so
`should_roll` is never consulted and no ROLL trade is ever appended to
any reachable trade log (first conjunct, for every run and every prefix
length).  Concretely (remaining conjuncts): after 25 days of the 40-day
flat run a position exists, that day processes no expiration event, and
`should_roll` on that day's inputs returns true (5 days remain, equal to
the roll threshold), yet the completed run's trade log contains no ROLL
trade and no trade dated day 25 at all. -/
theorem claim_C1 :
    (∀ (pm : PricingModel) (hvAt : ℕ → ℚ) (cfg : CoveredCallConfig)
        (prices : List (ℤ × ℚ)) (sd ed : Option ℤ) (k : ℕ)
        (st : BacktestState),
        run_up_to pm hvAt cfg prices sd ed k = .ok st →
        ∀ t ∈ st.strategy.trades, t.action ≠ .roll) ∧
    ((flatRunUpTo 25).strategy.position.isSome ∧
      (should_roll pennyPm defaultConfig (flatRunUpTo 25).strategy 25 2
        (3/10)).toOption = some true) ∧
    (run_backtest pennyPm flatHv defaultConfig flatPrices40 none none).toOption.map
      (fun st => st.strategy.trades.all (fun t =>
        !(t.action == TradeAction.roll) && !(t.date == 25))) = some true := by
  refine ⟨?_, ⟨?_, ?_⟩, ?_⟩
  · intro pm hvAt cfg prices sd ed k st h
    refine run_up_to_inv pm hvAt cfg prices sd ed k st
      (fun b => ∀ t ∈ b.strategy.trades, t.action ≠ .roll) h
      (by simp [initStrategy]) ?_
    intro b day b' _ hb hs
    obtain ⟨new, htr, hmem, -⟩ := step_day_effects ⟨pm, cfg⟩ b day b' hs
    intro t ht
    rw [htr] at ht
    rcases List.mem_append.mp ht with ht | ht
    · exact hb t ht
    · rcases hmem t ht with ⟨ha, -⟩ | ha | ⟨ha | ha, -⟩ <;> simp [ha]
  · with_unfolding_all decide
  · with_unfolding_all decide
  · with_unfolding_all decide

/-- Witness for C1: no trade of the two-day flat-run prefix is a ROLL. -/
theorem claim_C1_witness :
    (flatRunUpTo 2).strategy.trades.all
      (fun t => !(t.action == TradeAction.roll)) = true :=
  List.all_eq_true.mpr (fun t ht => by
    simpa using claim_C1.1 pennyPm flatHv defaultConfig flatPrices40 none none
      2 _ (by with_unfolding_all rfl) t ht)

/-! ### Claim C4: cash-flow signs (corrected) -/

/-- Counterexample to C4 as stated: in the flat-price run the day-0
SELL_CALL trade carries a negative cash-flow amount (the 10-contract
commission of 6.50 exceeds the 0.2775 total net premium), contradicting
"SELL_CALL records carry a non-negative amount". -/
theorem claim_C4_counterexample :
    (run_up_to pennyPm flatHv defaultConfig flatPrices40 none none 1).toOption.map
      (fun st => st.strategy.trades.any (fun t =>
        t.action == TradeAction.sellCall && decide (t.premium < 0))) =
      some true := by
  with_unfolding_all decide

/-- C4 amended: over every reachable trade log of a run on a positive
price series with a nonempty lot, BUY_STOCK amounts are negative and
EXPIRE and CALLED_AWAY amounts are exactly zero (ROLL trades never reach
a log, so their sign condition holds vacuously); the ROLL buyback trade
produced by `roll_position` itself is negative whenever the position has
at least one contract, the pricing function is nonnegative, the spread
is nonnegative and the commission positive; and a SELL_CALL amount is
non-negative whenever the net per-share premium times 100 covers the
per-contract commission — without that proviso it can be negative, as
the counterexample shows. -/
theorem claim_C4 :
    (∀ (pm : PricingModel) (hvAt : ℕ → ℚ) (cfg : CoveredCallConfig)
        (prices : List (ℤ × ℚ)) (sd ed : Option ℤ) (k : ℕ)
        (st : BacktestState),
        1 ≤ cfg.shares → (∀ pr ∈ prices, (0 : ℚ) < pr.2) →
        run_up_to pm hvAt cfg prices sd ed k = .ok st →
        ∀ t ∈ st.strategy.trades,
          (t.action = .buyStock → t.premium < 0) ∧
          (t.action = .expire → t.premium = 0) ∧
          (t.action = .calledAway → t.premium = 0) ∧
          (t.action = .roll → t.premium < 0)) ∧
    (∀ (pm : PricingModel) (cfg : CoveredCallConfig)
        (s : CoveredCallStrategy) (p : OptionPosition) (d : ℤ) (spot iv : ℚ),
        s.position = some p → 1 ≤ p.contracts →
        (∀ a b c e f, 0 ≤ pm.black_scholes_call a b c e f) →
        0 ≤ cfg.bid_ask_spread_pct → 0 < cfg.commission_per_contract →
        ((roll_position pm cfg s d spot iv).2.headD dummyTrade).premium < 0) ∧
    (∀ (pm : PricingModel) (cfg : CoveredCallConfig)
        (s : CoveredCallStrategy) (d : ℤ) (spot iv : ℚ) (dte : ℕ),
        cfg.commission_per_contract ≤
          sell_call_net_premium pm cfg spot iv dte * 100 →
        0 ≤ (sell_call pm cfg s d spot iv dte).2.premium) := by
  refine ⟨?_, ?_, ?_⟩
  · intro pm hvAt cfg prices sd ed k st hshares hpos h
    refine run_up_to_inv pm hvAt cfg prices sd ed k st
      (fun b => ∀ t ∈ b.strategy.trades,
        (t.action = .buyStock → t.premium < 0) ∧
        (t.action = .expire → t.premium = 0) ∧
        (t.action = .calledAway → t.premium = 0) ∧
        (t.action = .roll → t.premium < 0)) h (by simp [initStrategy]) ?_
    intro b day b' hd hb hs
    obtain ⟨new, htr, hmem, -⟩ := step_day_effects ⟨pm, cfg⟩ b day b' hs
    intro t ht
    rw [htr] at ht
    rcases List.mem_append.mp ht with ht | ht
    · exact hb t ht
    · have hclose : 0 < day.close := make_rows_close_pos hvAt prices sd ed hpos day hd
      have hq : (0 : ℚ) < (cfg.shares : ℚ) := by exact_mod_cast hshares
      rcases hmem t ht with ⟨ha, hprem⟩ | ha | ⟨ha | ha, hprem⟩ <;>
        refine ⟨?_, ?_, ?_, ?_⟩ <;> intro hact <;>
        simp_all
  · intro pm cfg s p d spot iv hp hc hbs hspread hcomm
    unfold roll_position
    rw [hp]
    dsimp only
    rw [List.headD_cons]
    have h1 : (0 : ℚ) ≤ pm.black_scholes_call spot p.strike
        (max (((p.expiration - d : ℤ) : ℚ) / 365) (1/1000)) cfg.risk_free_rate
        iv * (1 + cfg.bid_ask_spread_pct / 2) :=
      mul_nonneg (hbs _ _ _ _ _) (by linarith)
    have hq : (1 : ℚ) ≤ (p.contracts : ℚ) := by exact_mod_cast hc
    have h2 : (0 : ℚ) < (p.contracts : ℚ) * cfg.commission_per_contract := by
      nlinarith
    have h3 : (0 : ℚ) ≤ pm.black_scholes_call spot p.strike
        (max (((p.expiration - d : ℤ) : ℚ) / 365) (1/1000)) cfg.risk_free_rate
        iv * (1 + cfg.bid_ask_spread_pct / 2) * (p.contracts : ℚ) * 100 := by
      nlinarith
    dsimp only
    linarith
  · intro pm cfg s d spot iv dte hnet
    have hc0 : (0 : ℚ) ≤ ((s.shares_held / 100 : ℕ) : ℚ) := by positivity
    have key : (0 : ℚ) ≤ ((s.shares_held / 100 : ℕ) : ℚ) *
        (sell_call_net_premium pm cfg spot iv dte * 100 -
          cfg.commission_per_contract) :=
      mul_nonneg hc0 (by linarith)
    show (0 : ℚ) ≤ sell_call_net_premium pm cfg spot iv dte *
      ((s.shares_held / 100 : ℕ) : ℚ) * 100 -
      ((s.shares_held / 100 : ℕ) : ℚ) * cfg.commission_per_contract
    nlinarith [key]

/-- Witness for the amended C4: every trade of the one-day flat-run
prefix satisfies the buy-stock sign rule. -/
theorem claim_C4_witness :
    (flatRunUpTo 1).strategy.trades.all
      (fun t => !(t.action == TradeAction.buyStock) || decide (t.premium < 0)) =
      true :=
  List.all_eq_true.mpr (fun t ht => by
    have h := (claim_C4.1 pennyPm flatHv defaultConfig flatPrices40 none none
      1 _ (by decide) (by with_unfolding_all decide) (by with_unfolding_all rfl)
      t ht).1
    by_cases hb : t.action = TradeAction.buyStock <;> simp [hb, h])

/-! ### Claim C5: equity reconciliation (corrected) -/

/-- Counterexample to C5 as stated: in a 31-day run whose day-0 call is
assigned on the final day, initial capital plus all trade cash flows
plus the ending stock value falls short of the final equity row's value
by exactly 2500 (the strike-times-lot assignment proceeds, credited to
cash but recorded with a zero cash-flow amount on the CALLED_AWAY
trade) — far beyond any floating-point tolerance. -/
theorem claim_C5_counterexample :
    (run_backtest dimePm flatHv defaultConfig risePrices31 none none).toOption.map
      (fun st => st.strategy.trades.any
        (fun t => t.action == TradeAction.calledAway)) = some true ∧
    (run_backtest dimePm flatHv defaultConfig risePrices31 none none).toOption.map
      (fun st => st.equity_rows.getLast?.map (fun row =>
        ratEqB (st.initial_investment + trade_cash_sum st.strategy.trades +
          row.stock_value - row.equity) (-2500))) = some (some true) := by
  constructor <;> with_unfolding_all decide

/-- C5 amended: for every completed run, the final equity value equals
the initial capital (the first windowed close times the lot size) plus
the sum of all trade cash flows, plus `shares * strike` for every
CALLED_AWAY trade (whose own cash-flow field is zero), plus the final
stock value, minus the final mark-to-market option liability — exactly,
with no tolerance needed over exact rationals. -/
theorem claim_C5 (pm : PricingModel) (hvAt : ℕ → ℚ) (cfg : CoveredCallConfig)
    (prices : List (ℤ × ℚ)) (sd ed : Option ℤ) (st : BacktestState)
    (row : EquityRow)
    (h : run_backtest pm hvAt cfg prices sd ed = .ok st)
    (hrow : st.equity_rows.getLast? = some row) :
    st.initial_investment =
      ((window_filter sd ed (date_sorted prices)).headD (0, 0)).2 *
        (cfg.shares : ℚ) ∧
    row.equity = st.initial_investment + trade_cash_sum st.strategy.trades +
      assignment_credit cfg st.strategy.trades + row.stock_value -
      row.option_liability := by
  rw [run_backtest_eq_run_up_to] at h
  have key := run_up_to_inv pm hvAt cfg prices sd ed _ st
    (fun b =>
      b.initial_investment =
        ((window_filter sd ed (date_sorted prices)).headD (0, 0)).2 *
          (cfg.shares : ℚ) ∧
      b.cash = b.initial_investment + trade_cash_sum b.strategy.trades +
        assignment_credit cfg b.strategy.trades ∧
      (∀ r : EquityRow, b.equity_rows.getLast? = some r →
        r.cash = b.cash ∧
        r.equity = r.cash + r.stock_value - r.option_liability))
    h ?init ?step
  case init =>
    refine ⟨rfl, by simp [initStrategy, trade_cash_sum, assignment_credit], ?_⟩
    intro r hr
    simp at hr
  case step =>
    intro b day b' _ hb hs
    obtain ⟨new, htr, -, hc, hi, -, rrow, hrows, hrc, hre⟩ :=
      step_day_effects ⟨pm, cfg⟩ b day b' hs
    refine ⟨by rw [hi]; exact hb.1, ?_, ?_⟩
    · rw [hc, hb.2.1, htr, trade_cash_sum_append, assignment_credit_append, hi]
      ring
    · intro r hr
      rw [hrows, List.getLast?_concat] at hr
      injection hr with hr
      subst hr
      exact ⟨hrc, hre⟩
  · obtain ⟨hinit, hcash, hlast⟩ := key
    obtain ⟨hrc, hre⟩ := hlast row hrow
    refine ⟨hinit, ?_⟩
    rw [hre, hrc, hcash]

/-- Witness for the amended C5 on the assignment run: the final equity
row reconciles exactly once the assignment credit is included. -/
theorem claim_C5_witness :
    riseRunFinal.initial_investment =
      ((window_filter none none (date_sorted risePrices31)).headD (0, 0)).2 *
        (defaultConfig.shares : ℚ) ∧
    (riseRunFinal.equity_rows.getLast?.getD dummyRow).equity =
      riseRunFinal.initial_investment +
        trade_cash_sum riseRunFinal.strategy.trades +
        assignment_credit defaultConfig riseRunFinal.strategy.trades +
        (riseRunFinal.equity_rows.getLast?.getD dummyRow).stock_value -
        (riseRunFinal.equity_rows.getLast?.getD dummyRow).option_liability :=
  claim_C5 dimePm flatHv defaultConfig risePrices31 none none _ _
    (by with_unfolding_all rfl) (by with_unfolding_all rfl)

end CoveredCall
